import Mathlib

/-! Verification of the confronto-sefaz-uniconta reconciliation core: the
key and header normalizers (src/types.ts), the ledger spreadsheet extractor
and the authority HTML-table extractor (src/services/parser.ts), and the two
observed variants of the reconciliation engine `handleCompare` (the
src/App.tsx variant that reports authority records only, and the variant
that additionally reports ledger records absent from the authority data).
JavaScript strings are modelled as Lean `String`, JS numbers as `Option ℚ`
with `none` standing for `NaN`, absent (`undefined`) cells as cells beyond a
row's length (read back as `""`), and fallible extraction as `Except`.  The
file-reading, XLSX and DOM plumbing are out-of-scope collaborators: the
extractors here start from the decoded cell grids those collaborators
produce. -/

namespace Confronto

/-- JS `String.prototype.includes` on character lists: `containsSub pat hs`
is true when `pat` occurs contiguously inside `hs`. -/
def containsSub (pat : List Char) : List Char → Bool
  | [] => pat.isEmpty
  | c :: rest => pat.isPrefixOf (c :: rest) || containsSub pat rest

/-- String form of `containsSub`: `strContains s pat` models
`s.includes(pat)`. -/
def strContains (s pat : String) : Bool := containsSub pat.data s.data

/-- JS `toLowerCase`, modelled for the ASCII and Latin-1 letter ranges
occurring in the documents handled here. -/
def jsToLowerChar (c : Char) : Char :=
  if 'A' ≤ c ∧ c ≤ 'Z' then Char.ofNat (c.toNat + 32)
  else if 0xC0 ≤ c.toNat ∧ c.toNat ≤ 0xDE ∧ c.toNat ≠ 0xD7 then Char.ofNat (c.toNat + 32)
  else c

/-- JS `toLowerCase` on a string. -/
def jsToLower (s : String) : String := ⟨s.data.map jsToLowerChar⟩

/-- JS `trim` on a character list: drop whitespace at both ends. -/
def jsTrimList (cs : List Char) : List Char :=
  ((cs.dropWhile Char.isWhitespace).reverse.dropWhile Char.isWhitespace).reverse

/-- JS `trim` on a string. -/
def jsTrim (s : String) : String := ⟨jsTrimList s.data⟩

/-- Unicode NFD decomposition followed by removal of the combining marks
U+0300 to U+036F, modelled pointwise for the Latin-1 accented letters
(`normalizeHeader` runs it after lower-casing). -/
def stripDiacritic (c : Char) : Char :=
  match c with
  | 'à' | 'á' | 'â' | 'ã' | 'ä' | 'å' => 'a'
  | 'è' | 'é' | 'ê' | 'ë' => 'e'
  | 'ì' | 'í' | 'î' | 'ï' => 'i'
  | 'ò' | 'ó' | 'ô' | 'õ' | 'ö' => 'o'
  | 'ù' | 'ú' | 'û' | 'ü' => 'u'
  | 'ç' => 'c'
  | 'ñ' => 'n'
  | 'ý' => 'y'
  | _ => c

/-- Membership in the character class `[a-z0-9]` of `normalizeHeader`. -/
def isLowerAlnum (c : Char) : Bool :=
  (decide ('a' ≤ c) && decide (c ≤ 'z')) || c.isDigit

/-- Collapse every maximal run of characters outside `[a-z0-9]` into a
single underscore (`replace(/[^a-z0-9]+/g, "_")`); the Boolean flag records
whether the previous character was inside such a run. -/
def collapseAux : Bool → List Char → List Char
  | _, [] => []
  | inRun, c :: rest =>
    if isLowerAlnum c then c :: collapseAux false rest
    else if inRun then collapseAux true rest
    else '_' :: collapseAux true rest

/-- Run collapsing, starting outside any run. -/
def collapseRuns (cs : List Char) : List Char := collapseAux false cs

/-- `normalizeHeader` (src/types.ts): trim, lower-case, strip accents,
collapse non-alphanumeric runs to underscores; empty input yields `""`. -/
def normalizeHeader (text : String) : String :=
  if text = "" then ""
  else ⟨collapseRuns (((jsTrimList text.data).map jsToLowerChar).map stripDiacritic)⟩

/-- `normalizeKey` (src/types.ts): keep only the digit characters
(`replace(/[^0-9]/g, '')`); empty input yields `""`. -/
def normalizeKey (key : String) : String :=
  if key = "" then "" else ⟨key.data.filter Char.isDigit⟩

/-- `extractDateFromKey` (src/types.ts): on a 44-digit normalized key,
format `MM/20YY` from the year digits at offsets 2-3 and the month digits
at offsets 4-5; otherwise the empty string. -/
def extractDateFromKey (key : String) : String :=
  let cleanKey := normalizeKey key
  if cleanKey.length ≠ 44 then ""
  else
    let yy : String := ⟨(cleanKey.data.drop 2).take 2⟩
    let mm : String := ⟨(cleanKey.data.drop 4).take 2⟩
    mm ++ "/20" ++ yy

/-- Value of a list of digit characters read in base 10. -/
def digitsToNat (ds : List Char) : Nat :=
  ds.foldl (fun n c => 10 * n + (c.toNat - 48)) 0

/-- Components recognised by JS `parseFloat`: sign, integer part, fraction
digits (value and count), exponent sign and value. -/
structure FloatParts where
  neg : Bool
  ip : Nat
  fp : Nat
  fplen : Nat
  eneg : Bool
  ev : Nat
  deriving DecidableEq

/-- Component parse underlying JS `parseFloat`: skip leading whitespace,
optional sign, integer digits, optional `.` and fraction digits, optional
exponent; `none` when no digit is found (JS `NaN`).  The special literal
`Infinity` is not modelled — it cannot arise from the cells handled here. -/
def jsParseFloatParts (s : String) : Option FloatParts :=
  let cs := s.data.dropWhile Char.isWhitespace
  let sgn :=
    match cs with
    | '-' :: rest => (true, rest)
    | '+' :: rest => (false, rest)
    | _ => (false, cs)
  let neg := sgn.1
  let ipd := sgn.2.takeWhile Char.isDigit
  let cs2 := sgn.2.dropWhile Char.isDigit
  let fr :=
    match cs2 with
    | '.' :: rest => (rest.takeWhile Char.isDigit, rest.dropWhile Char.isDigit)
    | _ => ([], cs2)
  let fpd := fr.1
  if ipd.isEmpty && fpd.isEmpty then none
  else
    let ex :=
      match fr.2 with
      | 'e' :: '-' :: rest => (true, rest.takeWhile Char.isDigit)
      | 'e' :: '+' :: rest => (false, rest.takeWhile Char.isDigit)
      | 'e' :: rest => (false, rest.takeWhile Char.isDigit)
      | 'E' :: '-' :: rest => (true, rest.takeWhile Char.isDigit)
      | 'E' :: '+' :: rest => (false, rest.takeWhile Char.isDigit)
      | 'E' :: rest => (false, rest.takeWhile Char.isDigit)
      | _ => (false, [])
    some { neg := neg, ip := digitsToNat ipd, fp := digitsToNat fpd, fplen := fpd.length,
           eneg := ex.1 && !ex.2.isEmpty, ev := digitsToNat ex.2 }

/-- Rational value denoted by parsed float components. -/
def ratOfParts (p : FloatParts) : ℚ :=
  let mant : ℚ := (p.ip : ℚ) + (p.fp : ℚ) / 10 ^ p.fplen
  let m2 : ℚ := if p.eneg then mant / 10 ^ p.ev else mant * 10 ^ p.ev
  if p.neg then -m2 else m2

/-- JS `parseFloat` into `Option ℚ`, `none` standing for `NaN`. -/
def jsParseFloat (s : String) : Option ℚ := (jsParseFloatParts s).map ratOfParts

/-- First-occurrence replacement, as JS `replace` with a string pattern. -/
def replaceFirstList (pat repl : List Char) : List Char → List Char
  | [] => []
  | c :: rest =>
    if pat.isPrefixOf (c :: rest) then repl ++ (c :: rest).drop pat.length
    else c :: replaceFirstList pat repl rest

/-- Value-cell pipeline of `parseAccountingFile` (src/services/parser.ts
line 60): drop the first `R$`, drop every period, turn the first comma into
a period, fall back to `"0"` when the outcome is empty (which also covers
an absent cell), then `parseFloat`. -/
def parseValorCell (cell : String) : Option ℚ :=
  let t1 : List Char := replaceFirstList ['R', '$'] [] cell.data
  let t2 := t1.filter (fun c => c != '.')
  let t3 := replaceFirstList [','] ['.'] t2
  jsParseFloat (if t3.isEmpty then "0" else ⟨t3⟩)

/-- `AccountingRecord` (src/types.ts); `sourceRow` is the original row of
display-text cells. -/
structure AccountingRecord where
  id : String
  numero : String
  dataEmissao : String
  valor : Option ℚ
  chave : String
  sourceRow : List String
  deriving DecidableEq

/-- `SefazRecord` (src/types.ts). -/
structure SefazRecord where
  id : String
  chave : String
  numero : String
  serie : String
  situacao : String
  emitente : String
  data : String
  sourceRow : List String
  deriving DecidableEq

/-- `MatchStatus` (src/types.ts); the TS enum values are the display
strings `Lançada`, `Não Lançada`, `Não encontrada na SEFAZ`, `Cancelada`. -/
inductive MatchStatus where
  | MATCHED
  | MISSING_IN_ACCOUNTING
  | MISSING_IN_SEFAZ
  | CANCELLED
  deriving DecidableEq

/-- `ComparisonResult` (src/types.ts). -/
structure ComparisonResult where
  id : String
  chave : String
  numero : String
  serie : String
  data : String
  valor : Option ℚ
  situacaoSefaz : String
  status : MatchStatus
  sefazRecord : Option SefazRecord := none
  accountingRecord : Option AccountingRecord := none
  deriving DecidableEq

/-- Structural extraction failures of the two parsers: the empty-grid and
missing-key-column errors of `parseAccountingFile` and the
target-table-not-found error of `parseSefazHtml`. -/
inductive ParseError where
  | emptyFile
  | missingKeyColumn
  | tableNotFound
  deriving DecidableEq

/-- Key-column heuristic of `parseAccountingFile` over a normalized
header. -/
def isChaveHeader (h : String) : Bool :=
  strContains h "chave" || strContains h "chavenfe"

/-- Number-column heuristic of `parseAccountingFile`. -/
def isNumeroHeader (h : String) : Bool :=
  h == "numero" || h == "numero_nota" || strContains h "nota"

/-- Value-column heuristic of `parseAccountingFile`. -/
def isValorHeader (h : String) : Bool :=
  strContains h "valor" || strContains h "contabil"

/-- Date-column heuristic of `parseAccountingFile`. -/
def isDataHeader (h : String) : Bool :=
  strContains h "emissao" || strContains h "data"

/-- Row handling of `parseAccountingFile`: skip empty rows and rows whose
raw key cell is empty or absent; otherwise build the record.  The canonical
key is not re-checked after normalization. -/
def accountingRow (iChave : Nat) (iNumero iValor iData : Option Nat)
    (row : List String) : Option AccountingRecord :=
  if row.isEmpty then none
  else
    let rawKey := row.getD iChave ""
    if rawKey = "" then none
    else
      let chaveStr := normalizeKey rawKey
      let d0 := match iData with | some j => row.getD j "" | none => ""
      some {
        id := chaveStr
        chave := chaveStr
        numero := match iNumero with | some j => row.getD j "" | none => ""
        valor := match iValor with | some j => parseValorCell (row.getD j "") | none => some 0
        dataEmissao := if d0 = "" then extractDateFromKey chaveStr else d0
        sourceRow := row }

/-- `parseAccountingFile` (src/services/parser.ts), from the decoded
displayed-text cell grid of the first sheet.  Fails on an empty grid, or
with the missing-key-column error when no normalized row-zero header
satisfies the key heuristic. -/
def parseAccountingFile (jsonData : List (List String)) :
    Except ParseError (List AccountingRecord) :=
  match jsonData with
  | [] => .error .emptyFile
  | headerRow :: dataRows =>
    let headers := headerRow.map normalizeHeader
    match headers.findIdx? isChaveHeader with
    | none => .error .missingKeyColumn
    | some iChave =>
      .ok (dataRows.filterMap
        (accountingRow iChave (headers.findIdx? isNumeroHeader)
          (headers.findIdx? isValorHeader) (headers.findIdx? isDataHeader)))

/-- Column-role indexes of `parseSefazHtml` (the JS `headerMap` object). -/
structure HeaderMap where
  chave : Option Nat := none
  situacao : Option Nat := none
  numero : Option Nat := none
  serie : Option Nat := none
  emitente : Option Nat := none
  data : Option Nat := none
  deriving DecidableEq

/-- Role assignment for one header cell of `parseSefazHtml`: the first
matching rule wins for the cell, and a later cell matching the same rule
overwrites the stored index (JS object assignment inside `forEach`). -/
def assignRole (hm : HeaderMap) (idx : Nat) (txt : String) : HeaderMap :=
  if strContains txt "chave" then { hm with chave := some idx }
  else if strContains txt "situacao" then { hm with situacao := some idx }
  else if strContains txt "numero" || txt == "nota" then { hm with numero := some idx }
  else if strContains txt "serie" then { hm with serie := some idx }
  else if strContains txt "emitente" && !strContains txt "cnpj" then
    { hm with emitente := some idx }
  else if strContains txt "data" || strContains txt "emissao" then { hm with data := some idx }
  else hm

/-- Build the role map from the normalized cells of the header row. -/
def buildHeaderMap (cellTexts : List String) : HeaderMap :=
  cellTexts.enum.foldl (fun hm p => assignRole hm p.1 p.2) {}

/-- Header-row search of `parseSefazHtml` within one table: inspect only
the first five rows; a row whose normalized cells include both a `chave`
cell and a `situacao` cell is the header row. -/
def findHeaderRow (tbl : List (List String)) : Option HeaderMap :=
  (tbl.take 5).findSome? (fun row =>
    let cellTexts := row.map normalizeHeader
    if (cellTexts.any (fun t => strContains t "chave")) &&
        (cellTexts.any (fun t => strContains t "situacao"))
    then some (buildHeaderMap cellTexts) else none)

/-- Target-table search of `parseSefazHtml` over the document's tables in
document order. -/
def findTargetTable (tables : List (List (List String))) :
    Option (List (List String) × HeaderMap) :=
  tables.findSome? (fun t => (findHeaderRow t).map (fun hm => (t, hm)))

/-- `getVal` of `parseSefazHtml`: trimmed text of the cell at a resolved
role index; `""` when the role is unresolved or the cell is absent. -/
def getVal (cells : List String) (idx : Option Nat) : String :=
  match idx with
  | some i => match cells.get? i with | some c => jsTrim c | none => ""
  | none => ""

/-- Row handling of `parseSefazHtml`: drop rows with fewer than 3 cells,
re-filter the header row (its key-role cell contains `chave`,
checked on the lower-cased raw text), and gate emission on a non-empty
canonical key longer than 20 characters. -/
def sefazRow (hm : HeaderMap) (cells : List String) : Option SefazRecord :=
  if cells.length < 3 then none
  else if (match hm.chave with
           | some i =>
             match cells.get? i with
             | some c => strContains (jsToLower c) "chave"
             | none => false
           | none => false)
  then none
  else
    let chave := normalizeKey (getVal cells hm.chave)
    let d0 := getVal cells hm.data
    if chave ≠ "" ∧ chave.length > 20 then
      some {
        id := chave
        chave := chave
        numero := getVal cells hm.numero
        serie := getVal cells hm.serie
        situacao := getVal cells hm.situacao
        emitente := getVal cells hm.emitente
        data := if d0 = "" then extractDateFromKey chave else d0
        sourceRow := cells }
    else none

/-- `parseSefazHtml` (src/services/parser.ts), from the decoded list of
tables, each a list of rows of cell texts.  Fails with the
target-table-not-found error when no table passes the header heuristic. -/
def parseSefazHtml (tables : List (List (List String))) :
    Except ParseError (List SefazRecord) :=
  match findTargetTable tables with
  | none => .error .tableNotFound
  | some pr => .ok (pr.1.filterMap (sefazRow pr.2))

/-- Key-to-record association list modelling the JS `Map` of
`handleCompare`, in insertion order. -/
abbrev AccMap := List (String × AccountingRecord)

/-- JS `Map.set`: replace in place when the key exists, else append. -/
def mapSet (m : AccMap) (k : String) (v : AccountingRecord) : AccMap :=
  if m.any (fun p => p.1 == k) then
    m.map (fun p => if p.1 = k then (k, v) else p)
  else m ++ [(k, v)]

/-- JS `Map.get`. -/
def mapGet (m : AccMap) (k : String) : Option AccountingRecord :=
  (m.find? (fun p => p.1 == k)).map (fun p => p.2)

/-- JS `Map.delete`. -/
def mapDelete (m : AccMap) (k : String) : AccMap :=
  m.filter (fun p => p.1 != k)

/-- Map-building step of `handleCompare` (identical in both variants):
ledger records with an empty `chave` are skipped; duplicate keys are
overwritten, last writer wins. -/
def buildMap (accountingData : List AccountingRecord) : AccMap :=
  accountingData.foldl
    (fun m item => if item.chave ≠ "" then mapSet m item.chave item else m) []

/-- Cancellation test of `handleCompare`:
`sefaz.situacao.toLowerCase().includes('cancelada')`. -/
def isCancelada (situacao : String) : Bool :=
  strContains (jsToLower situacao) "cancelada"

/-- Authority-pass body shared by both `handleCompare` variants.
`consume` is true in the variant that deletes matched keys to track the
remaining ledger records, false in the src/App.tsx variant (which has no
delete). -/
def processSefaz (consume : Bool) (m : AccMap) (sefaz : SefazRecord) :
    ComparisonResult × AccMap :=
  let mtch := mapGet m sefaz.chave
  let status :=
    if isCancelada sefaz.situacao then MatchStatus.CANCELLED
    else if mtch.isSome then MatchStatus.MATCHED
    else MatchStatus.MISSING_IN_ACCOUNTING
  let m2 :=
    if consume && (!isCancelada sefaz.situacao) && mtch.isSome then mapDelete m sefaz.chave
    else m
  ({ id := sefaz.chave
     chave := sefaz.chave
     numero := sefaz.numero
     serie := sefaz.serie
     data := if sefaz.data = "" then extractDateFromKey sefaz.chave else sefaz.data
     valor := match mtch with | some a => a.valor | none => some 0
     situacaoSefaz := sefaz.situacao
     status := status
     sefazRecord := some sefaz
     accountingRecord := mtch }, m2)

/-- Authority pass: one result per authority record, in authority order,
threading the ledger map through `processSefaz`. -/
def sefazPass (consume : Bool) (m : AccMap) :
    List SefazRecord → List ComparisonResult × AccMap
  | [] => ([], m)
  | s :: rest =>
    let st := processSefaz consume m s
    let rec2 := sefazPass consume st.2 rest
    (st.1 :: rec2.1, rec2.2)

/-- Tail emission for one surviving map entry (the `mapAccounting.forEach`
after the authority pass of the unmatched-reporting variant). -/
def missingResult (p : String × AccountingRecord) : ComparisonResult :=
  { id := p.2.chave
    chave := p.2.chave
    numero := p.2.numero
    serie := ""
    data := if p.2.dataEmissao = "" then extractDateFromKey p.2.chave else p.2.dataEmissao
    valor := p.2.valor
    situacaoSefaz := "Não encontrada no arquivo"
    status := MatchStatus.MISSING_IN_SEFAZ
    sefazRecord := none
    accountingRecord := some p.2 }

/-- Comparison list of the `handleCompare` variant that also reports
ledger records absent from the authority data (the consuming variant). -/
def compareFull (accountingData : List AccountingRecord) (sefazData : List SefazRecord) :
    List ComparisonResult :=
  let st := sefazPass true (buildMap accountingData) sefazData
  st.1 ++ st.2.map missingResult

/-- Comparison list of the src/App.tsx `handleCompare` variant (authority
records only). -/
def compareApp (accountingData : List AccountingRecord) (sefazData : List SefazRecord) :
    List ComparisonResult :=
  (sefazPass false (buildMap accountingData) sefazData).1

/-- `handleCompare` of the unmatched-reporting variant, with its
empty-input guard: no result list is produced when either dataset is
empty. -/
def handleCompare (accountingData : List AccountingRecord) (sefazData : List SefazRecord) :
    Option (List ComparisonResult) :=
  if accountingData.length = 0 ∨ sefazData.length = 0 then none
  else some (compareFull accountingData sefazData)

/-- `handleCompare` of src/App.tsx, with the same empty-input guard. -/
def handleCompareApp (accountingData : List AccountingRecord) (sefazData : List SefazRecord) :
    Option (List ComparisonResult) :=
  if accountingData.length = 0 ∨ sefazData.length = 0 then none
  else some (compareApp accountingData sefazData)

/-- Placeholder ledger record used as a `getD` default. -/
def defaultAccounting : AccountingRecord :=
  { id := "", numero := "", dataEmissao := "", valor := some 0, chave := "", sourceRow := [] }

/-- Placeholder authority record used as a `getD` default. -/
def defaultSefaz : SefazRecord :=
  { id := "", chave := "", numero := "", serie := "", situacao := "", emitente := "",
    data := "", sourceRow := [] }

/-- Placeholder comparison result used as a `getD` default. -/
def defaultResult : ComparisonResult :=
  { id := "", chave := "", numero := "", serie := "", data := "", valor := some 0,
    situacaoSefaz := "", status := MatchStatus.MISSING_IN_ACCOUNTING }

end Confronto

namespace Confronto

/-- Substring containment transfers down prefixes of the pattern: a string
containing `pat2` also contains any prefix `pat1` of `pat2`. -/
theorem containsSub_of_prefix {pat1 pat2 : List Char} (hp : pat1 <+: pat2) :
    ∀ {hs : List Char}, containsSub pat2 hs = true → containsSub pat1 hs = true := by
  intro hs
  induction hs with
  | nil =>
    simp [containsSub, List.isEmpty_iff]
    rintro rfl
    exact List.prefix_nil.mp hp
  | cons c rest ih =>
    simp only [containsSub, Bool.or_eq_true]
    rintro (h | h)
    · exact Or.inl (List.isPrefixOf_iff_prefix.mpr
        (hp.trans (List.isPrefixOf_iff_prefix.mp h)))
    · exact Or.inr (ih h)

/-- A normalized header not containing `chave` satisfies neither disjunct of
the ledger key-column heuristic. -/
theorem isChaveHeader_eq_false {h : String} (hc : strContains h "chave" = false) :
    isChaveHeader h = false := by
  unfold isChaveHeader
  rw [hc]
  simp only [Bool.false_or]
  cases hnfe : strContains h "chavenfe" with
  | false => rfl
  | true =>
    exfalso
    have h2 : strContains h "chave" = true :=
      containsSub_of_prefix (List.isPrefixOf_iff_prefix.mp
        (show List.isPrefixOf "chave".data "chavenfe".data = true from by decide)) hnfe
    rw [hc] at h2
    exact Bool.false_ne_true h2

/-- The authority pass produces exactly one result per authority record. -/
theorem sefazPass_length (consume : Bool) (m : AccMap) (l : List SefazRecord) :
    (sefazPass consume m l).1.length = l.length := by
  induction l generalizing m with
  | nil => rfl
  | cons s rest ih => simp [sefazPass, ih]

/-- The result at position `i` of the authority pass carries the key of the
`i`-th authority record. -/
theorem sefazPass_getD_chave (consume : Bool) (m : AccMap) (l : List SefazRecord)
    (i : Nat) (hi : i < l.length) :
    ((sefazPass consume m l).1.getD i defaultResult).chave = (l.getD i defaultSefaz).chave := by
  induction l generalizing m i with
  | nil => simp at hi
  | cons s rest ih =>
    cases i with
    | zero => simp [sefazPass, processSefaz]
    | succ j =>
      simp only [sefazPass, List.getD_cons_succ]
      exact ih _ _ (by simpa using hi)

/-- The result at position `i` of the authority pass back-references the
`i`-th authority record. -/
theorem sefazPass_getD_src (consume : Bool) (m : AccMap) (l : List SefazRecord)
    (i : Nat) (hi : i < l.length) :
    ((sefazPass consume m l).1.getD i defaultResult).sefazRecord =
      some (l.getD i defaultSefaz) := by
  induction l generalizing m i with
  | nil => simp at hi
  | cons s rest ih =>
    cases i with
    | zero => simp [sefazPass, processSefaz]
    | succ j =>
      simp only [sefazPass, List.getD_cons_succ]
      exact ih _ _ (by simpa using hi)

/-- A cancelled authority record yields a `CANCELLED` result at its
position, whatever the ledger map holds. -/
theorem sefazPass_getD_cancelled (consume : Bool) (m : AccMap) (l : List SefazRecord)
    (i : Nat) (hi : i < l.length)
    (hc : isCancelada ((l.getD i defaultSefaz).situacao) = true) :
    ((sefazPass consume m l).1.getD i defaultResult).status = MatchStatus.CANCELLED := by
  induction l generalizing m i with
  | nil => simp at hi
  | cons s rest ih =>
    cases i with
    | zero =>
      simp only [List.getD_cons_zero] at hc
      simp [sefazPass, processSefaz, hc]
    | succ j =>
      simp only [List.getD_cons_succ] at hc
      simp only [sefazPass, List.getD_cons_succ]
      exact ih _ _ (by simpa using hi) hc

end Confronto

namespace Confronto

/-- Entries removed by `mapDelete` aside, membership is preserved: a
deleted map's entries all come from the original map. -/
theorem mapDelete_subset {m : AccMap} {k : String} {p : String × AccountingRecord}
    (h : p ∈ mapDelete m k) : p ∈ m := (List.mem_filter.mp h).1

/-- An entry of `mapSet m k v` is either `(k, v)` or an entry of `m`. -/
theorem mapSet_mem {m : AccMap} {k : String} {v : AccountingRecord}
    {p : String × AccountingRecord} (h : p ∈ mapSet m k v) : p = (k, v) ∨ p ∈ m := by
  unfold mapSet at h
  split at h
  · obtain ⟨q, hq, hmap⟩ := List.mem_map.mp h
    by_cases hk : q.1 = k
    · simp [hk] at hmap
      exact Or.inl hmap.symm
    · simp [hk] at hmap
      exact Or.inr (hmap ▸ hq)
  · rcases List.mem_append.mp h with h1 | h1
    · exact Or.inr h1
    · simp at h1
      exact Or.inl h1

/-- `mapSet m k v` has an entry under key `k`. -/
theorem mapSet_mem_self (m : AccMap) (k : String) (v : AccountingRecord) :
    ∃ w, (k, w) ∈ mapSet m k v := by
  unfold mapSet
  split
  case isTrue h =>
    obtain ⟨q, hq, hqk⟩ := List.any_eq_true.mp h
    refine ⟨v, List.mem_map.mpr ⟨q, hq, ?_⟩⟩
    rw [beq_iff_eq] at hqk
    simp [hqk]
  case isFalse => exact ⟨v, List.mem_append.mpr (Or.inr (by simp))⟩

/-- `mapSet` keeps every key that was present. -/
theorem mapSet_mem_keep {m : AccMap} {k : String} (k' : String) (v' : AccountingRecord)
    (h : ∃ w, (k, w) ∈ m) : ∃ w, (k, w) ∈ mapSet m k' v' := by
  by_cases hkk : k = k'
  · subst hkk
    exact mapSet_mem_self m k v'
  · obtain ⟨w, hw⟩ := h
    unfold mapSet
    split
    · exact ⟨w, List.mem_map.mpr ⟨(k, w), hw, by simp [hkk]⟩⟩
    · exact ⟨w, List.mem_append.mpr (Or.inl hw)⟩

/-- Every entry of the ledger map built by `handleCompare` is keyed by its
record's `chave`, and that `chave` is non-empty: records with an empty key
are never inserted. -/
theorem buildMap_inv (accountingData : List AccountingRecord) :
    ∀ p ∈ buildMap accountingData, p.1 = p.2.chave ∧ p.2.chave ≠ "" := by
  suffices h : ∀ (l : List AccountingRecord) (m : AccMap),
      (∀ p ∈ m, p.1 = p.2.chave ∧ p.2.chave ≠ "") →
      ∀ p ∈ l.foldl (fun m item => if item.chave ≠ "" then mapSet m item.chave item else m) m,
        p.1 = p.2.chave ∧ p.2.chave ≠ "" by
    exact h accountingData [] (by simp)
  intro l
  induction l with
  | nil => intro m hm; simpa using hm
  | cons a rest ih =>
    intro m hm
    simp only [List.foldl_cons]
    apply ih
    intro p hp
    split at hp
    case isTrue hne =>
      rcases mapSet_mem hp with h1 | h1
      · subst h1
        exact ⟨rfl, hne⟩
      · exact hm p h1
    case isFalse => exact hm p hp

/-- Any key carried by some ledger record with a non-empty `chave` is
present in the built map. -/
theorem buildMap_key_mem (accountingData : List AccountingRecord) (k : String)
    (hk : k ≠ "") (h : ∃ a ∈ accountingData, a.chave = k) :
    ∃ v, (k, v) ∈ buildMap accountingData := by
  suffices hs : ∀ (l : List AccountingRecord) (m : AccMap),
      ((∃ w, (k, w) ∈ m) ∨ ∃ a ∈ l, a.chave = k) →
      ∃ w, (k, w) ∈ l.foldl (fun m item => if item.chave ≠ "" then mapSet m item.chave item else m) m by
    exact hs accountingData [] (Or.inr h)
  intro l
  induction l with
  | nil =>
    intro m hm
    rcases hm with h1 | h1
    · simpa using h1
    · simp at h1
  | cons a rest ih =>
    intro m hm
    simp only [List.foldl_cons]
    apply ih
    rcases hm with h1 | h1
    · left
      split
      · exact mapSet_mem_keep _ _ h1
      · exact h1
    · obtain ⟨b, hb, hbk⟩ := h1
      rcases List.mem_cons.mp hb with rfl | hbr
      · left
        rw [if_pos (hbk ▸ hk)]
        rw [hbk]
        exact mapSet_mem_self m k b
      · exact Or.inr ⟨b, hbr, hbk⟩

/-- The final map of the authority pass only filters the initial map: its
entries all come from the map the pass started with. -/
theorem sefazPass_map_subset (consume : Bool) (m : AccMap) (l : List SefazRecord) :
    ∀ p ∈ (sefazPass consume m l).2, p ∈ m := by
  induction l generalizing m with
  | nil => intro p hp; simpa [sefazPass] using hp
  | cons s rest ih =>
    intro p hp
    simp only [sefazPass] at hp
    have h2 := ih _ p hp
    unfold processSefaz at h2
    simp only at h2
    split at h2
    · exact mapDelete_subset h2
    · exact h2

/-- A key whose every authority occurrence is cancelled is never deleted by
the authority pass. -/
theorem sefazPass_key_persist (consume : Bool) (m : AccMap) (l : List SefazRecord)
    (k : String) (hm : ∃ w, (k, w) ∈ m)
    (hall : ∀ s ∈ l, s.chave = k → isCancelada s.situacao = true) :
    ∃ w, (k, w) ∈ (sefazPass consume m l).2 := by
  induction l generalizing m with
  | nil => simpa [sefazPass] using hm
  | cons s rest ih =>
    simp only [sefazPass]
    apply ih
    · unfold processSefaz
      simp only
      split
      case isTrue hcond =>
        obtain ⟨w, hw⟩ := hm
        refine ⟨w, List.mem_filter.mpr ⟨hw, ?_⟩⟩
        simp only [bne_iff_ne, ne_eq, decide_eq_true_eq]
        intro hks
        have hcanc := hall s (List.mem_cons_self s rest) hks.symm
        simp [hcanc] at hcond
      case isFalse => exact hm
    · intro t ht htk
      exact hall t (List.mem_cons_of_mem s ht) htk

end Confronto

namespace Confronto

/-- `getD` through `map` at an in-range index. -/
theorem getD_map_lt {α β : Type} (f : α → β) (l : List α) (i : Nat) (hi : i < l.length)
    (d : β) (d2 : α) : (l.map f).getD i d = f (l.getD i d2) := by
  rw [List.getD_eq_getElem?_getD, List.getD_eq_getElem?_getD, List.getElem?_map,
    List.getElem?_eq_getElem hi]
  simp

/-- Field equations of the one-record authority-pass body. -/
theorem processSefaz_fields (consume : Bool) (m : AccMap) (s : SefazRecord) :
    ((processSefaz consume m s).1).chave = s.chave ∧
    ((processSefaz consume m s).1).accountingRecord = mapGet m s.chave ∧
    ((processSefaz consume m s).1).valor =
      (match mapGet m s.chave with | some a => a.valor | none => some 0) ∧
    ((processSefaz consume m s).1).status =
      (if isCancelada s.situacao then MatchStatus.CANCELLED
       else if (mapGet m s.chave).isSome then MatchStatus.MATCHED
       else MatchStatus.MISSING_IN_ACCOUNTING) :=
  ⟨rfl, rfl, rfl, rfl⟩

/-- A successful `mapGet` returns the payload of an entry of the map whose
key is the looked-up key. -/
theorem mapGet_some {m : AccMap} {k : String} {a : AccountingRecord}
    (h : mapGet m k = some a) : ∃ p ∈ m, p.1 = k ∧ p.2 = a := by
  unfold mapGet at h
  obtain ⟨p, hfind, hp2⟩ := Option.map_eq_some'.mp h
  exact ⟨p, List.mem_of_find?_eq_some hfind,
    by simpa [beq_iff_eq] using List.find?_some hfind, hp2⟩

/-- Provenance of the authority-pass results: when the starting map is
well-keyed (every entry keyed by its record's non-empty `chave`), every
result of the pass either has no ledger back-reference and the zero value,
or back-references a ledger record whose `chave` is non-empty, equals the
result's key, and supplies the result's value; a `MATCHED` result always
has a back-reference, and no result of the pass is `MISSING_IN_SEFAZ`. -/
theorem sefazPass_results (consume : Bool) (m : AccMap) (l : List SefazRecord)
    (hm : ∀ p ∈ m, p.1 = p.2.chave ∧ p.2.chave ≠ "") :
    ∀ r ∈ (sefazPass consume m l).1,
      (r.status = MatchStatus.MATCHED → ∃ a, r.accountingRecord = some a) ∧
      (r.accountingRecord = none → r.valor = some 0) ∧
      (∀ a, r.accountingRecord = some a →
        r.valor = a.valor ∧ a.chave = r.chave ∧ a.chave ≠ "") ∧
      r.status ≠ MatchStatus.MISSING_IN_SEFAZ := by
  induction l generalizing m with
  | nil => simp [sefazPass]
  | cons s rest ih =>
    intro r hr
    simp only [sefazPass, List.mem_cons] at hr
    rcases hr with rfl | hr
    · obtain ⟨hchv, hacc, hval, hst⟩ := processSefaz_fields consume m s
      refine ⟨?_, ?_, ?_, ?_⟩
      · intro h1
        rw [hst] at h1
        rw [hacc]
        cases hget : mapGet m s.chave with
        | none =>
          rw [hget] at h1
          simp only [Option.isSome_none, Bool.false_eq_true, if_false] at h1
          split at h1
          · exact absurd h1 (by decide)
          · exact absurd h1 (by decide)
        | some b => exact ⟨b, rfl⟩
      · intro hnone
        rw [hacc] at hnone
        rw [hval, hnone]
      · intro a hsome
        rw [hacc] at hsome
        obtain ⟨p, hpm, hpk, hp2⟩ := mapGet_some hsome
        have hinv := hm p hpm
        refine ⟨by rw [hval, hsome], ?_, ?_⟩
        · rw [hchv, ← hpk, hinv.1, hp2]
        · rw [← hp2]
          exact hinv.2
      · rw [hst]
        split
        · decide
        · split
          · decide
          · decide
    · refine ih _ ?_ r hr
      intro p hp
      apply hm
      unfold processSefaz at hp
      simp only at hp
      split at hp
      · exact mapDelete_subset hp
      · exact hp

end Confronto

namespace Confronto

/-- Concrete evaluation of the value pipeline on a currency-formatted
cell. -/
theorem parseValorCell_currency : parseValorCell "R$ 1.234,56" = some (1234.56 : ℚ) := by
  have h : parseValorCell "R$ 1.234,56" = (jsParseFloatParts " 1234.56").map ratOfParts := rfl
  rw [h, show jsParseFloatParts " 1234.56" = some ⟨false, 1234, 56, 2, false, 0⟩ from by decide]
  show some (ratOfParts _) = _
  norm_num [ratOfParts]

/-- Concrete evaluation of the value pipeline on an empty (or absent)
cell: the `|| '0'` fallback yields zero. -/
theorem parseValorCell_empty : parseValorCell "" = some 0 := by
  have h : parseValorCell "" = (jsParseFloatParts "0").map ratOfParts := rfl
  rw [h, show jsParseFloatParts "0" = some ⟨false, 0, 0, 0, false, 0⟩ from by decide]
  show some (ratOfParts _) = _
  norm_num [ratOfParts]

/-- Concrete evaluation of the value pipeline on a non-empty, non-numeric
cell: `parseFloat` yields `NaN` (modelled `none`), not zero. -/
theorem parseValorCell_nonnumeric : parseValorCell "abc" = none := rfl

end Confronto

namespace Confronto

/-- C5: for every input string whose digits-only normalization has length
exactly 44, `extractDateFromKey` returns the string `MM/20YY` where `YY`
is the two digits at offsets 2-3 and `MM` the two digits at offsets 4-5 of
the normalized key; for every input whose normalized digit count is not
44, it returns the empty string. -/
theorem extractDateFromKey_formats_month_year (k : String) :
    ((normalizeKey k).length = 44 →
      extractDateFromKey k =
        (⟨((normalizeKey k).data.drop 4).take 2⟩ : String) ++ "/20" ++
          ⟨((normalizeKey k).data.drop 2).take 2⟩) ∧
    ((normalizeKey k).length ≠ 44 → extractDateFromKey k = "") := by
  constructor
  · intro h
    simp [extractDateFromKey, h]
  · intro h
    simp [extractDateFromKey, h]

/-- Witness for C5 at a concrete 44-digit key: year digits `34`, month
digits `56`, formatted `56/2034`. -/
theorem extractDateFromKey_formats_month_year_witness :
    (normalizeKey "12345678901234567890123456789012345678901234").length = 44 ∧
    extractDateFromKey "12345678901234567890123456789012345678901234" = "56/2034" := by
  refine ⟨by decide, ?_⟩
  have h := (extractDateFromKey_formats_month_year
    "12345678901234567890123456789012345678901234").1 (by decide)
  rw [h]
  decide

/-- C8: `normalizeKey` yields only digit characters, its length never
exceeds the number of digit characters of the input, and empty input maps
to the empty string (the `!key` guard). -/
theorem normalizeKey_digits_only (s : String) :
    ((normalizeKey s).data.all Char.isDigit) = true ∧
    (normalizeKey s).length ≤ s.data.countP Char.isDigit ∧
    normalizeKey "" = "" := by
  refine ⟨?_, ?_, rfl⟩
  · unfold normalizeKey
    split
    · decide
    · simp only [List.all_eq_true]
      intro c hc
      exact (List.mem_filter.mp hc).2
  · unfold normalizeKey
    split
    · simp
    · show (s.data.filter Char.isDigit).length ≤ s.data.countP Char.isDigit
      rw [List.countP_eq_length_filter]

/-- C7: when no normalized row-zero header of the ledger grid contains the
substring `chave` (hence none contains `chavenfe` either),
`parseAccountingFile` fails with the missing-key-column `FormatError` and
returns no record list at all. -/
theorem ledger_fails_without_key_header (headerRow : List String)
    (dataRows : List (List String))
    (h : ∀ s ∈ headerRow, strContains (normalizeHeader s) "chave" = false) :
    parseAccountingFile (headerRow :: dataRows) = .error .missingKeyColumn := by
  have hidx : (headerRow.map normalizeHeader).findIdx? isChaveHeader = none := by
    rw [List.findIdx?_eq_none_iff]
    intro x hx
    obtain ⟨s, hs, rfl⟩ := List.mem_map.mp hx
    exact isChaveHeader_eq_false (h s hs)
  simp [parseAccountingFile, hidx]

/-- Witness for C7 at a concrete ledger grid with no key header. -/
theorem ledger_fails_without_key_header_witness :
    parseAccountingFile [["Numero", "Valor"], ["111", "5"]] = .error .missingKeyColumn :=
  ledger_fails_without_key_header ["Numero", "Valor"] [["111", "5"]] (by decide)

/-- C1: in both `handleCompare` variants, the result emitted at the
position of an authority record whose status text contains `cancelada`
case-insensitively is classified `CANCELLED` — never `MATCHED` — whatever
the ledger data holds, even a record with the same canonical key. -/
theorem cancelled_overrides_match (accountingData : List AccountingRecord)
    (sefazData : List SefazRecord) (res resApp : List ComparisonResult) (i : Nat)
    (hres : handleCompare accountingData sefazData = some res)
    (hresApp : handleCompareApp accountingData sefazData = some resApp)
    (hi : i < sefazData.length)
    (hc : isCancelada (sefazData.getD i defaultSefaz).situacao = true) :
    (res.getD i defaultResult).status = MatchStatus.CANCELLED ∧
    (resApp.getD i defaultResult).status = MatchStatus.CANCELLED := by
  unfold handleCompare at hres
  unfold handleCompareApp at hresApp
  split at hres
  · exact absurd hres (by simp)
  case isFalse hcond =>
    rw [if_neg hcond] at hresApp
    injection hres with hres
    injection hresApp with hresApp
    subst hres hresApp
    constructor
    · simp only [compareFull]
      rw [List.getD_append _ _ _ _ (by rw [sefazPass_length]; exact hi)]
      exact sefazPass_getD_cancelled true _ sefazData i hi hc
    · simp only [compareApp]
      exact sefazPass_getD_cancelled false _ sefazData i hi hc

/-- Concrete ledger fixture: canonical key `1`. -/
def wAcc : AccountingRecord :=
  { id := "1", numero := "n1", dataEmissao := "01/2024", valor := some 5, chave := "1",
    sourceRow := [] }

/-- Concrete authority fixture: same key as `wAcc`, cancelled status. -/
def wSefCanc : SefazRecord :=
  { id := "1", chave := "1", numero := "77", serie := "1", situacao := "Cancelada",
    emitente := "E", data := "01/2024", sourceRow := [] }

/-- Witness for C1: a cancelled authority record with a matching ledger key
is classified `CANCELLED` in both variants. -/
theorem cancelled_overrides_match_witness :
    ((compareFull [wAcc] [wSefCanc]).getD 0 defaultResult).status = MatchStatus.CANCELLED ∧
    ((compareApp [wAcc] [wSefCanc]).getD 0 defaultResult).status = MatchStatus.CANCELLED :=
  cancelled_overrides_match [wAcc] [wSefCanc] _ _ 0 rfl rfl (by decide) (by decide)

end Confronto

namespace Confronto

/-- C3 counterexample: a data row whose raw key cell is non-empty but
contains no digits is not skipped — the extractor emits a record whose
canonical key is the empty string. -/
theorem ledger_emits_empty_key_record :
    ∃ recs, parseAccountingFile [["Chave"], ["abc"]] = .ok recs ∧
      ∃ r ∈ recs, r.chave = "" := ⟨_, rfl, by decide⟩

/-- C3 (amended): the ledger extractor skips a row only when its raw key
cell is empty or absent; every emitted record's canonical key is the
digits-only normalization of a non-empty raw key cell of some data row —
and that normalization may be the empty string when the cell holds no
digits. -/
theorem ledger_key_from_nonempty_raw_cell (headerRow : List String)
    (dataRows : List (List String)) (recs : List AccountingRecord)
    (h : parseAccountingFile (headerRow :: dataRows) = .ok recs) :
    ∃ i, (headerRow.map normalizeHeader).findIdx? isChaveHeader = some i ∧
      ∀ r ∈ recs, ∃ row ∈ dataRows,
        row.getD i "" ≠ "" ∧ r.chave = normalizeKey (row.getD i "") := by
  simp only [parseAccountingFile] at h
  cases hidx : (headerRow.map normalizeHeader).findIdx? isChaveHeader with
  | none =>
    rw [hidx] at h
    cases h
  | some i =>
    rw [hidx] at h
    injection h with h
    refine ⟨i, rfl, ?_⟩
    intro r hr
    rw [← h] at hr
    obtain ⟨row, hrow, hsome⟩ := List.mem_filterMap.mp hr
    simp only [accountingRow] at hsome
    split at hsome
    · cases hsome
    · split at hsome
      case isTrue => cases hsome
      case isFalse hne =>
        injection hsome with h2
        exact ⟨row, hrow, hne, by rw [← h2]⟩

/-- Witness for the amended C3 on a concrete grid whose only data row has
the digit-free raw key `abc`. -/
theorem ledger_key_from_nonempty_raw_cell_witness :
    ∃ i, ((["Chave"] : List String).map normalizeHeader).findIdx? isChaveHeader = some i ∧
      ∀ r ∈ ([{ id := "", numero := "", dataEmissao := "", valor := some 0, chave := "",
                sourceRow := ["abc"] }] : List AccountingRecord),
        ∃ row ∈ [["abc"]], row.getD i "" ≠ "" ∧ r.chave = normalizeKey (row.getD i "") :=
  ledger_key_from_nonempty_raw_cell ["Chave"] [["abc"]] _ rfl

/-- C4 counterexample: a non-empty value cell that fails numeric parsing
yields `NaN` (modelled `none`), not the value 0 the claim states. -/
theorem ledger_value_parse_failure_is_nan :
    ∃ recs, parseAccountingFile [["Chave", "Valor"], ["111", "abc"]] = .ok recs ∧
      (recs.getD 0 defaultAccounting).valor = none ∧
      (recs.getD 0 defaultAccounting).valor ≠ some 0 := by
  refine ⟨_, rfl, ?_, ?_⟩
  · show parseValorCell "abc" = none
    rfl
  · show parseValorCell "abc" ≠ some 0
    rw [parseValorCell_nonnumeric]
    simp

/-- C4 (amended): the value of an emitted ledger record is obtained by
stripping the `R$` prefix, removing periods, replacing the comma with a
period and parsing (`R$ 1.234,56` yields 1234.56); an unresolved value
column yields 0, and an empty or absent cell yields 0 via the `'0'`
fallback — but a non-empty cell that fails to parse yields `NaN`, not 0. -/
theorem ledger_value_pipeline :
    (∃ recs, parseAccountingFile [["Chave", "Valor"], ["111", "R$ 1.234,56"]] = .ok recs ∧
      recs.length = 1 ∧ (recs.getD 0 defaultAccounting).valor = some (1234.56 : ℚ)) ∧
    (∀ headerRow dataRows recs, parseAccountingFile (headerRow :: dataRows) = .ok recs →
      (headerRow.map normalizeHeader).findIdx? isValorHeader = none →
      ∀ r ∈ recs, r.valor = some 0) ∧
    (∃ recs, parseAccountingFile [["Chave", "Valor"], ["111", ""]] = .ok recs ∧
      (recs.getD 0 defaultAccounting).valor = some 0) := by
  refine ⟨⟨_, rfl, by decide, ?_⟩, ?_, ⟨_, rfl, ?_⟩⟩
  · show parseValorCell "R$ 1.234,56" = some (1234.56 : ℚ)
    exact parseValorCell_currency
  · intro headerRow dataRows recs h hval r hr
    simp only [parseAccountingFile] at h
    cases hidx : (headerRow.map normalizeHeader).findIdx? isChaveHeader with
    | none =>
      rw [hidx] at h
      cases h
    | some i =>
      rw [hidx] at h
      injection h with h
      rw [← h] at hr
      obtain ⟨row, hrow, hsome⟩ := List.mem_filterMap.mp hr
      rw [hval] at hsome
      simp only [accountingRow] at hsome
      split at hsome
      · cases hsome
      · split at hsome
        · cases hsome
        · injection hsome with h2
          rw [← h2]
  · show parseValorCell "" = some 0
    exact parseValorCell_empty

/-- Record emitted for the value-column-free grid of the C4 witness. -/
def wValRec : AccountingRecord :=
  { id := "123", numero := "", dataEmissao := "", valor := some 0, chave := "123",
    sourceRow := ["123"] }

/-- Witness for the amended C4: a ledger grid with no value column yields
the zero value on its emitted record. -/
theorem ledger_value_pipeline_witness :
    parseAccountingFile [["Chave"], ["123"]] = .ok [wValRec] ∧ wValRec.valor = some 0 :=
  ⟨rfl, ledger_value_pipeline.2.1 ["Chave"] [["123"]] [wValRec] rfl (by decide)
    wValRec (by decide)⟩

/-- C6: the authority extractor emits a record for a row of the target
table only if the row's canonical key is non-empty and has length strictly
greater than 20 characters; rows failing this gate produce no record. -/
theorem sefaz_key_gate (tables : List (List (List String)))
    (recs : List SefazRecord) (h : parseSefazHtml tables = .ok recs) :
    ∀ r ∈ recs, r.chave ≠ "" ∧ 20 < r.chave.length := by
  unfold parseSefazHtml at h
  cases htt : findTargetTable tables with
  | none =>
    rw [htt] at h
    cases h
  | some pr =>
    rw [htt] at h
    injection h with h
    intro r hr
    rw [← h] at hr
    obtain ⟨cells, hc, hsome⟩ := List.mem_filterMap.mp hr
    simp only [sefazRow] at hsome
    split at hsome
    · cases hsome
    · split at hsome
      · cases hsome
      · split at hsome
        case isTrue hgate =>
          injection hsome with h2
          rw [← h2]
          exact ⟨hgate.1, hgate.2⟩
        case isFalse => cases hsome

/-- Concrete authority document fixture: one table, punctuated 21-digit key
in the data row. -/
def wTables : List (List (List String)) :=
  [[["Chave", "Situação"], ["123-456.78901234567890 1", "Autorizada", "x"]]]

/-- Record the authority extractor emits for `wTables`. -/
def wSefOut : SefazRecord :=
  { id := "123456789012345678901", chave := "123456789012345678901", numero := "",
    serie := "", situacao := "Autorizada", emitente := "", data := "",
    sourceRow := ["123-456.78901234567890 1", "Autorizada", "x"] }

/-- Witness for C6: the record emitted for `wTables` passes the key gate. -/
theorem sefaz_key_gate_witness :
    parseSefazHtml wTables = .ok [wSefOut] ∧ wSefOut.chave ≠ "" ∧ 20 < wSefOut.chave.length :=
  ⟨rfl, sefaz_key_gate wTables [wSefOut] rfl wSefOut (by decide)⟩

end Confronto

namespace Confronto

/-- C2 (amended): after emitting one result per authority record in
authority order (each back-referencing its authority record), the
unmatched-reporting variant appends, for each entry remaining in the
ledger map once the pass is over, exactly one result classified
`MISSING_IN_SEFAZ`, carrying that map record's number and value, its date
(derived from the key when the record's date is empty), the fixed status
text `Não encontrada no arquivo`, and no authority back-reference. -/
theorem unmatched_ledger_tail (accountingData : List AccountingRecord)
    (sefazData : List SefazRecord) (res : List ComparisonResult)
    (h : handleCompare accountingData sefazData = some res) :
    res.length = sefazData.length +
      ((sefazPass true (buildMap accountingData) sefazData).2).length ∧
    (∀ i, i < sefazData.length →
      (res.getD i defaultResult).sefazRecord = some (sefazData.getD i defaultSefaz)) ∧
    (∀ i, i < ((sefazPass true (buildMap accountingData) sefazData).2).length →
      res.getD (sefazData.length + i) defaultResult =
        (let p := ((sefazPass true (buildMap accountingData) sefazData).2).getD i
            ("", defaultAccounting)
         { id := p.2.chave, chave := p.2.chave, numero := p.2.numero, serie := "",
           data := if p.2.dataEmissao = "" then extractDateFromKey p.2.chave
                   else p.2.dataEmissao,
           valor := p.2.valor, situacaoSefaz := "Não encontrada no arquivo",
           status := MatchStatus.MISSING_IN_SEFAZ, sefazRecord := none,
           accountingRecord := some p.2 })) := by
  unfold handleCompare at h
  split at h
  · exact absurd h (by simp)
  · injection h with h
    subst h
    refine ⟨?_, ?_, ?_⟩
    · simp only [compareFull]
      rw [List.length_append, sefazPass_length, List.length_map]
    · intro i hi
      simp only [compareFull]
      rw [List.getD_append _ _ _ _ (by rw [sefazPass_length]; exact hi)]
      exact sefazPass_getD_src true _ sefazData i hi
    · intro i hi
      simp only [compareFull]
      rw [List.getD_append_right _ _ _ _ (by rw [sefazPass_length]; omega)]
      rw [sefazPass_length, Nat.add_sub_cancel_left]
      rw [getD_map_lt missingResult _ i hi defaultResult ("", defaultAccounting)]
      rfl

/-- Unmatched ledger fixture for the C2 witness: key `2`. -/
def wAcc2 : AccountingRecord :=
  { id := "2", numero := "n2", dataEmissao := "", valor := some 9, chave := "2",
    sourceRow := [] }

/-- Authority fixture for the C2 witness: unrelated key `9`. -/
def wSef9 : SefazRecord :=
  { id := "9", chave := "9", numero := "s9", serie := "", situacao := "Autorizada",
    emitente := "", data := "d", sourceRow := [] }

/-- Witness for the amended C2: the appended result for the unmatched
ledger record, in full. -/
theorem unmatched_ledger_tail_witness :
    (compareFull [wAcc2] [wSef9]).getD (([wSef9] : List SefazRecord).length + 0)
        defaultResult =
      { id := "2", chave := "2", numero := "n2", serie := "", data := "",
        valor := some 9, situacaoSefaz := "Não encontrada no arquivo",
        status := MatchStatus.MISSING_IN_SEFAZ, sefazRecord := none,
        accountingRecord := some wAcc2 } := by
  have h := (unmatched_ledger_tail [wAcc2] [wSef9] _ rfl).2.2 0 (by decide)
  rw [h]
  rfl

/-- Ledger fixture for C9: key `1`. -/
def xAcc : AccountingRecord :=
  { id := "1", numero := "a", dataEmissao := "d", valor := some 3, chave := "1",
    sourceRow := [] }

/-- Cancelled authority fixture for C9, key `1`. -/
def xSefCanc : SefazRecord :=
  { id := "1", chave := "1", numero := "c", serie := "", situacao := "Cancelada",
    emitente := "", data := "d", sourceRow := [] }

/-- Authorized authority fixture for C9, same key `1`. -/
def xSefAuth : SefazRecord :=
  { id := "1", chave := "1", numero := "m", serie := "", situacao := "Autorizada",
    emitente := "", data := "d", sourceRow := [] }

/-- C9 counterexample: when the same key also occurs on a non-cancelled
authority record, the `MATCHED` branch deletes it from the pending map, so
no `MISSING_IN_SEFAZ` result is emitted for the key even though a
cancelled authority record with a matching ledger record exists. -/
theorem cancelled_match_consumed_elsewhere :
    ∃ res, handleCompare [xAcc] [xSefCanc, xSefAuth] = some res ∧
      (∃ r ∈ res, r.status = MatchStatus.CANCELLED ∧ r.chave = "1") ∧
      ¬ ∃ r ∈ res, r.status = MatchStatus.MISSING_IN_SEFAZ :=
  ⟨_, rfl, by decide, by decide⟩

/-- C9 (amended): the pending-map delete happens only in the `MATCHED`
branch, so for a ledger record whose non-empty key occurs at the authority
only with `cancelada`-containing statuses, the unmatched-reporting variant
emits both the `CANCELLED` result at that authority record's position and
a second `MISSING_IN_SEFAZ` result for the same key, even though the
authority dataset contains that key. -/
theorem cancelled_key_double_report (accountingData : List AccountingRecord)
    (sefazData : List SefazRecord) (res : List ComparisonResult)
    (h : handleCompare accountingData sefazData = some res)
    (k : String) (hk : k ≠ "")
    (a : AccountingRecord) (ha : a ∈ accountingData) (hak : a.chave = k)
    (i : Nat) (hi : i < sefazData.length)
    (hik : (sefazData.getD i defaultSefaz).chave = k)
    (hci : isCancelada (sefazData.getD i defaultSefaz).situacao = true)
    (hall : ∀ s ∈ sefazData, s.chave = k → isCancelada s.situacao = true) :
    (res.getD i defaultResult).status = MatchStatus.CANCELLED ∧
    (res.getD i defaultResult).chave = k ∧
    ∃ r ∈ res, r.status = MatchStatus.MISSING_IN_SEFAZ ∧ r.chave = k := by
  unfold handleCompare at h
  split at h
  · exact absurd h (by simp)
  · injection h with h
    subst h
    refine ⟨?_, ?_, ?_⟩
    · simp only [compareFull]
      rw [List.getD_append _ _ _ _ (by rw [sefazPass_length]; exact hi)]
      exact sefazPass_getD_cancelled true _ sefazData i hi hci
    · simp only [compareFull]
      rw [List.getD_append _ _ _ _ (by rw [sefazPass_length]; exact hi)]
      rw [sefazPass_getD_chave true _ sefazData i hi]
      exact hik
    · have hmem0 : ∃ v, (k, v) ∈ buildMap accountingData :=
        buildMap_key_mem accountingData k hk ⟨a, ha, hak⟩
      obtain ⟨v, hv⟩ :=
        sefazPass_key_persist true (buildMap accountingData) sefazData k hmem0 hall
      have hinv := buildMap_inv accountingData (k, v)
        (sefazPass_map_subset true _ sefazData (k, v) hv)
      refine ⟨missingResult (k, v), ?_, rfl, hinv.1.symm⟩
      simp only [compareFull]
      exact List.mem_append.mpr (Or.inr (List.mem_map.mpr ⟨(k, v), hv, rfl⟩))

/-- Witness for the amended C9: key `1` occurs at the authority only as
cancelled, and both results are emitted. -/
theorem cancelled_key_double_report_witness :
    ((compareFull [xAcc] [xSefCanc]).getD 0 defaultResult).status = MatchStatus.CANCELLED ∧
    ((compareFull [xAcc] [xSefCanc]).getD 0 defaultResult).chave = "1" ∧
    ∃ r ∈ compareFull [xAcc] [xSefCanc],
      r.status = MatchStatus.MISSING_IN_SEFAZ ∧ r.chave = "1" :=
  cancelled_key_double_report [xAcc] [xSefCanc] _ rfl "1" (by decide) xAcc
    (by decide) rfl 0 (by decide) (by decide) (by decide) (by decide)

/-- C10: both `handleCompare` variants exclude ledger records with an
empty `chave` when building the key map; consequently every `MATCHED`
result back-references a ledger record whose key is non-empty and equals
the result's key, every result's monetary value is either zero (no
back-reference) or supplied by a back-referenced record with a non-empty
key, and every `MISSING_IN_SEFAZ` result of the unmatched-reporting
variant carries a non-empty key and a ledger back-reference — so an
empty-key ledger record is never matched, never supplies a value, and is
never reported missing. -/
theorem empty_key_ledger_excluded (accountingData : List AccountingRecord)
    (sefazData : List SefazRecord) :
    (∀ p ∈ buildMap accountingData, p.1 = p.2.chave ∧ p.2.chave ≠ "") ∧
    (∀ res, handleCompare accountingData sefazData = some res → ∀ r ∈ res,
      (r.status = MatchStatus.MATCHED →
        ∃ a, r.accountingRecord = some a ∧ a.chave = r.chave ∧ a.chave ≠ "") ∧
      (r.accountingRecord = none → r.valor = some 0) ∧
      (∀ a, r.accountingRecord = some a → r.valor = a.valor ∧ a.chave ≠ "") ∧
      (r.status = MatchStatus.MISSING_IN_SEFAZ →
        r.chave ≠ "" ∧ ∃ a, r.accountingRecord = some a ∧ a.chave = r.chave)) ∧
    (∀ res, handleCompareApp accountingData sefazData = some res → ∀ r ∈ res,
      (r.status = MatchStatus.MATCHED →
        ∃ a, r.accountingRecord = some a ∧ a.chave = r.chave ∧ a.chave ≠ "") ∧
      (r.accountingRecord = none → r.valor = some 0) ∧
      (∀ a, r.accountingRecord = some a → r.valor = a.valor ∧ a.chave ≠ "")) := by
  refine ⟨buildMap_inv accountingData, ?_, ?_⟩
  · intro res h r hr
    unfold handleCompare at h
    split at h
    · exact absurd h (by simp)
    · injection h with h
      subst h
      simp only [compareFull] at hr
      rcases List.mem_append.mp hr with h1 | h1
      · have H := sefazPass_results true (buildMap accountingData) sefazData
          (buildMap_inv accountingData) r h1
        refine ⟨?_, H.2.1, ?_, ?_⟩
        · intro hm
          obtain ⟨a, hacc⟩ := H.1 hm
          have hS := H.2.2.1 a hacc
          exact ⟨a, hacc, hS.2.1, hS.2.2⟩
        · intro a hsome
          have hS := H.2.2.1 a hsome
          exact ⟨hS.1, hS.2.2⟩
        · intro hmiss
          exact absurd hmiss H.2.2.2
      · obtain ⟨p, hp, rfl⟩ := List.mem_map.mp h1
        have hinv := buildMap_inv accountingData p
          (sefazPass_map_subset true _ sefazData p hp)
        refine ⟨?_, ?_, ?_, ?_⟩
        · intro h1x
          simp [missingResult] at h1x
        · intro hnone
          simp [missingResult] at hnone
        · intro a hsome
          simp only [missingResult] at hsome
          injection hsome with hsome
          rw [← hsome]
          exact ⟨rfl, hinv.2⟩
        · intro _
          exact ⟨hinv.2, p.2, rfl, rfl⟩
  · intro res h r hr
    unfold handleCompareApp at h
    split at h
    · exact absurd h (by simp)
    · injection h with h
      subst h
      simp only [compareApp] at hr
      have H := sefazPass_results false (buildMap accountingData) sefazData
        (buildMap_inv accountingData) r hr
      refine ⟨?_, H.2.1, ?_⟩
      · intro hm
        obtain ⟨a, hacc⟩ := H.1 hm
        have hS := H.2.2.1 a hacc
        exact ⟨a, hacc, hS.2.1, hS.2.2⟩
      · intro a hsome
        have hS := H.2.2.1 a hsome
        exact ⟨hS.1, hS.2.2⟩

/-- Empty-key ledger fixture for the C10 witness. -/
def yAccEmpty : AccountingRecord :=
  { id := "", numero := "e", dataEmissao := "", valor := some 4, chave := "",
    sourceRow := [] }

/-- Non-empty-key ledger fixture for the C10 witness. -/
def yAcc : AccountingRecord :=
  { id := "5", numero := "g", dataEmissao := "d", valor := some 6, chave := "5",
    sourceRow := [] }

/-- Authority fixture matching `yAcc` for the C10 witness. -/
def ySef : SefazRecord :=
  { id := "5", chave := "5", numero := "s", serie := "", situacao := "Autorizada",
    emitente := "", data := "d", sourceRow := [] }

/-- Witness for C10: in a run containing an empty-key ledger record, the
`MATCHED` result back-references the non-empty-key record. -/
theorem empty_key_ledger_excluded_witness :
    ∃ a, ((compareFull [yAccEmpty, yAcc] [ySef]).getD 0 defaultResult).accountingRecord =
        some a ∧
      a.chave = ((compareFull [yAccEmpty, yAcc] [ySef]).getD 0 defaultResult).chave ∧
      a.chave ≠ "" :=
  ((empty_key_ledger_excluded [yAccEmpty, yAcc] [ySef]).2.1
    (compareFull [yAccEmpty, yAcc] [ySef]) rfl
    ((compareFull [yAccEmpty, yAcc] [ySef]).getD 0 defaultResult) (by decide)).1 (by decide)

end Confronto

namespace Confronto

/-- First of two ledger fixtures sharing key `1` (C2 counterexample). -/
def zAccA : AccountingRecord :=
  { id := "1", numero := "n1", dataEmissao := "d", valor := some 7, chave := "1",
    sourceRow := [] }

/-- Second ledger fixture with the same key `1` but number `n2`. -/
def zAccB : AccountingRecord :=
  { id := "1", numero := "n2", dataEmissao := "d", valor := some 8, chave := "1",
    sourceRow := [] }

/-- C2 counterexample: two ledger records share key `1`, which is never
looked up during the authority pass; last-write-wins map building keeps
only the second, so no `MISSING_IN_SEFAZ` result carrying the first
record's own number `n1` is emitted — one result per ledger record, as
claimed, fails. -/
theorem unmatched_ledger_overwritten :
    ∃ res, handleCompare [zAccA, zAccB] [wSef9] = some res ∧
      (∃ r ∈ res, r.status = MatchStatus.MISSING_IN_SEFAZ ∧ r.numero = "n2") ∧
      ¬ ∃ r ∈ res, r.status = MatchStatus.MISSING_IN_SEFAZ ∧ r.numero = "n1" :=
  ⟨_, rfl, by decide, by decide⟩

end Confronto
